import Mathlib

/-!
Shallow embedding of the platform-resolution specializer of
`src/packages/webpack5/src/configuration/base.ts` and of the React variant
configuration (`src/unnamed/part_000`), together with proofs about the
extension-list construction, the `require.context` exclusion patterns, and
the stylesheet `@import` resolver.

Strings of the JavaScript source are modelled as Lean `String`s (paths also
as `List Char` where character-level reasoning is needed).  JavaScript's
`String.prototype.replace` with a string pattern replaces only the first
occurrence, so a dedicated `jsReplaceFirst` is defined rather than reusing
`String.replace` (which replaces all occurrences).
-/

namespace NSWebpack

/-- JavaScript regular-expression `\w` character class (no unicode flag):
`[A-Za-z0-9_]`. -/
def isWordChar (c : Char) : Bool := c.isAlphanum || c == '_'

/-- JavaScript `haystack.includes(needle)` on the underlying character
lists: `needle` occurs contiguously in `hay` (always true for the empty
needle, as in JavaScript). -/
def strIncludesL (needle hay : List Char) : Bool :=
  hay.tails.any (fun t => needle.isPrefixOf t)

/-- JavaScript `hay.includes(needle)` for `String`s. -/
def strIncludes (needle hay : String) : Bool :=
  strIncludesL needle.toList hay.toList

/-- Replace the first occurrence of `pat` in the list; the list is returned
unchanged when `pat` does not occur.  This is the behaviour of JavaScript
`s.replace(pat, repl)` for a non-empty string pattern `pat` with a
replacement containing no `$` escapes. -/
def replaceFirstAux (pat repl : List Char) : List Char → List Char
  | [] => []
  | c :: rest =>
    if pat.isPrefixOf (c :: rest) then repl ++ (c :: rest).drop pat.length
    else c :: replaceFirstAux pat repl rest

/-- JavaScript `s.replace(pat, repl)` (string pattern: first occurrence
only). -/
def jsReplaceFirst (s pat repl : String) : String :=
  ⟨replaceFirstAux pat.toList repl.toList s.toList⟩

/-! ### webpack-chain `ChainedSet` (insertion-ordered set of strings)

`config.resolve.extensions` is a webpack-chain `ChainedSet`, backed by a
JavaScript `Set`: `add` appends a value unless already present, `merge`
adds each value of a list in order, `prepend` puts the value in front
(dropping a later duplicate), `clear` empties the set. -/

/-- `ChainedSet.add`: append unless already present. -/
def addExt (l : List String) (e : String) : List String :=
  if e ∈ l then l else l ++ [e]

/-- `ChainedSet.merge`: add each value in order. -/
def mergeSet (l vs : List String) : List String := vs.foldl addExt l

/-- `ChainedSet.prepend`: `new Set([e, ...store])` — `e` first, then the
old values, duplicates keeping their first occurrence. -/
def prependSet (l : List String) (e : String) : List String :=
  (e :: l).foldl addExt []

/-- The fixed set of generic extensions wired in `base.ts` lines 195–207:
`ts, js, mjs, css, scss, json`, in source order. -/
def genericExtensions : List String := ["ts", "js", "mjs", "css", "scss", "json"]

/-- `base.ts` lines 195–207, parameterized by the list of generic
extensions: for each generic extension `e` in order, the source performs
`config.resolve.extensions.add('.${platform}.e').add('.e')` starting from
the extension state `st` of the configuration object (the source is the
literal unrolling at `genericExtensions`). -/
def addPlatformExtensions (platform : String) (generics : List String)
    (st : List String) : List String :=
  generics.foldl
    (fun acc e => addExt (addExt acc ("." ++ platform ++ "." ++ e)) ("." ++ e)) st

/-- `base.ts` lines 211–218: build `newExtensions` by pushing each existing
extension and, right after an extension containing `'visionos'`, also
pushing `ext.replace('visionos', 'ios')`. -/
def visionosExpand (exts : List String) : List String :=
  exts.foldl
    (fun acc ext =>
      let acc2 := acc ++ [ext]
      if strIncludes "visionos" ext then
        acc2 ++ [jsReplaceFirst ext "visionos" "ios"]
      else acc2) []

/-- `base.ts` lines 195–221 as a transformer of the
`config.resolve.extensions` state: add the platform/generic pairs, then,
when the platform is `visionos`,
`config.resolve.extensions.clear().merge(newExtensions)`. -/
def applyResolveExtensions (platform : String) (generics : List String)
    (st : List String) : List String :=
  let st2 := addPlatformExtensions platform generics st
  if platform = "visionos" then mergeSet [] (visionosExpand st2) else st2

/-- The extension list derived for a platform from an initially empty
configuration (`base.ts` lines 195–221). -/
def resolveExtensions (platform : String) (generics : List String) : List String :=
  applyResolveExtensions platform generics []

/-- `src/unnamed/part_000` line 15, applied after the base configuration:
`config.resolve.extensions.prepend('.tsx').prepend('.${platform}.tsx')`. -/
def reactExtensions (platform : String) : List String :=
  prependSet (prependSet (resolveExtensions platform genericExtensions) ".tsx")
    ("." ++ platform ++ ".tsx")

/-! ### Position helpers for ordered-list claims -/

/-- All pairs of immediately adjacent entries of a list, in order. -/
def adjacentPairs : List String → List (String × String)
  | a :: b :: rest => (a, b) :: adjacentPairs (b :: rest)
  | _ => []

/-- All pairs `(l[i], l[j])` with `i < j`. -/
def laterPairs : List String → List (String × String)
  | [] => []
  | a :: rest => (rest.map (fun b => (a, b))) ++ laterPairs rest

/-- `a` occurs immediately before `b` somewhere in `l`. -/
def immediatelyBefore (a b : String) (l : List String) : Prop :=
  (a, b) ∈ adjacentPairs l

instance (a b : String) (l : List String) : Decidable (immediatelyBefore a b l) := by
  unfold immediatelyBefore
  infer_instance

/-! ### Exclusion patterns (`base.ts` lines 423–439)

The `Other_Platforms` plugin receives the regular expression
`\.(p1|…|pn)\.(\w+)$` where `p1…pn` enumerates
`getAvailablePlatforms().filter(p => p !== getPlatformName())`; the
`App_Resources` plugin receives `(.*)App_Resources(.*)`.  A test of
`\.(p1|…|pn)\.(\w+)$` against a path succeeds exactly when some tail of
the path consists of a literal `'.'`, one alternative `pi`, a literal
`'.'`, and then one or more word characters running to the end of the
path; the alternatives here are platform-name literals, so the alternation
is the disjunction over the individual alternatives. -/

/-- The tail part `\.(\w+)$` of the exclusion regular expression: the
remaining characters are a literal `'.'` followed by one or more word
characters running to the end of the path. -/
def tailWordMatch : List Char → Bool
  | [] => false
  | d :: w => d == '.' && !w.isEmpty && w.all isWordChar

/-- A match of `\.q\.(\w+)$` starting at tail `t` of the path: `t` is a
literal `'.'`, then the alternative `q`, then `\.(\w+)$` to the end. -/
def reAltAt (q : List Char) : List Char → Bool
  | [] => false
  | c :: rest => c == '.' && q.isPrefixOf rest && tailWordMatch (rest.drop q.length)

/-- `new RegExp("\\." ++ q ++ "\\.(\\w+)$").test path` for a literal
alternative `q`: some tail of the path matches it. -/
def reAltMatch (q : List Char) (path : List Char) : Bool :=
  path.tails.any (reAltAt q)

/-- The alternation list `allKnown − {active}` of the `Other_Platforms`
regular expression (`base.ts` lines 431–433). -/
def otherPlatformsAlternatives (allKnown : List String) (active : String) :
    List (List Char) :=
  (allKnown.filter (fun q => q ≠ active)).map String.toList

/-- The `Other_Platforms` exclusion regular expression
`\.(q1|…|qn)\.(\w+)$` tested against a path (`base.ts` line 438). -/
def otherPlatformsMatch (allKnown : List String) (active : String)
    (path : List Char) : Bool :=
  (otherPlatformsAlternatives allKnown active).any (fun q => reAltMatch q path)

/-- The fixed `App_Resources` exclusion pattern `(.*)App_Resources(.*)`
(`base.ts` line 427): matches any path containing `App_Resources`. -/
def appResourcesMatch (path : List Char) : Bool :=
  strIncludesL "App_Resources".toList path

/-- The union of the two exclusion patterns registered by `base.ts`
lines 425–439. -/
def exclusionMatch (allKnown : List String) (active : String)
    (path : List Char) : Bool :=
  otherPlatformsMatch allKnown active path || appResourcesMatch path

/-! ### Node `path.extname` and the stylesheet `@import` resolver
(`base.ts` lines 334–374) -/

/-- The basename part of a path: everything after the last `'/'`. -/
def basenameL (p : List Char) : List Char :=
  (p.reverse.takeWhile (fun c => c != '/')).reverse

/-- Node `path.extname` on character lists: the part of the basename from
its last `'.'` to the end; empty when the basename has no dot, when its
only dot is the leading character, or when the basename is `".."`. -/
def extnameL (p : List Char) : List Char :=
  let b := basenameL p
  if b = ['.', '.'] then []
  else
    let after := b.reverse.takeWhile (fun c => c != '.')
    if after.length = b.length then []
    else if after.length + 1 = b.length then []
    else '.' :: after.reverse

/-- Node `path.extname` for `String`s. -/
def extname (s : String) : String := ⟨extnameL s.toList⟩

/-- The external resolution facilities used by the `@import` resolver:
`require.resolve(request, \x7b paths: [baseDir] \x7d)` modelled as an
`Option` (`none` models the caught exception), `existsSync`, and
`path.resolve`. -/
structure FS where
  requireResolve : String → String → Option String
  pathExists : String → Bool
  resolvePath : String → String → String

/-- The candidate loop of the `postcss-import` `resolve` option
(`base.ts` lines 346–365): for each platform target in order, skip the
candidate when the specifier already includes the platform extension
(always the case when the specifier has no extension, since every string
includes `''`), otherwise try `require.resolve` (exceptions caught), then
an `existsSync` check on the joined path; fall through to the next
candidate on a miss and return the specifier unchanged after the loop
(`base.ts` line 368). -/
def cssImportGo (fs : FS) (id baseDir : String) : List String → String
  | [] => id
  | t :: rest =>
    let ext := extname id
    let platformExt := if ext ≠ "" then "." ++ t ++ ext else ""
    if strIncludes platformExt id then cssImportGo fs id baseDir rest
    else
      let platformRequest := jsReplaceFirst id ext platformExt
      let extPath := fs.resolvePath baseDir platformRequest
      match fs.requireResolve platformRequest baseDir with
      | some r => r
      | none =>
        if fs.pathExists extPath then extPath
        else cssImportGo fs id baseDir rest

/-- The `postcss-import` `resolve` option of `base.ts` lines 343–369: the
candidate platform targets are `[platform, 'ios']` when the platform is
`visionos` and `[platform]` otherwise (line 345). -/
def cssImportResolve (fs : FS) (platform id baseDir : String) : String :=
  cssImportGo fs id baseDir
    (if platform = "visionos" then [platform, "ios"] else [platform])

/-! ### Platform set and configuration construction -/

/-- Modelled from the spec: the closed set of known platform identifiers
(`ios`, `android`, `visionos`).  The helper `getAvailablePlatforms`
(`src/packages/webpack5/src/helpers/platform.ts`) is not under `src/`. -/
def allKnownPlatforms : List String := ["ios", "android", "visionos"]

/-- Modelled from the spec: `getPlatformName`
(`src/packages/webpack5/src/helpers/platform.ts`, not under `src/`)
rejects a platform identifier outside the known set with a configuration
error and never substitutes a guessed value. -/
def getPlatformName (requested : String) : Except String String :=
  if requested ∈ allKnownPlatforms then Except.ok requested
  else Except.error ("invalid platform: " ++ requested)

/-- Configuration construction (`base.ts` line 34 then lines 195–221 and
423–439): the platform name is validated first; only on success are the
extension list and the `Other_Platforms` alternation derived from it. -/
def buildConfiguration (requested : String) :
    Except String (List String × List String) :=
  (getPlatformName requested).map fun platform =>
    (resolveExtensions platform genericExtensions,
     allKnownPlatforms.filter (fun q => q ≠ platform))

/-! ## Claims -/

/-- C2: the claim states that for active platform `visionos` with generic
extensions `[ts]` the list is `.visionos.ts, .ts, .ios.ts` (ios variant
appended after the generic entry); the code (`base.ts` lines 211–218)
instead pushes the ios variant immediately after the visionos variant, so
the produced list is `.visionos.ts, .ios.ts, .ts`. -/
theorem C2_counterexample :
    resolveExtensions "visionos" ["ts"] ≠ [".visionos.ts", ".ts", ".ios.ts"] := by
  decide

/-- C2 (amended): for active platform `visionos` with generic extensions
`[ts]`, the list is `.visionos.ts, .ios.ts, .ts` — the ios-qualified entry
immediately after the visionos-qualified one and before the generic entry —
with no duplicate of the generic `ts` entry. -/
theorem C2_amended :
    resolveExtensions "visionos" ["ts"] = [".visionos.ts", ".ios.ts", ".ts"] ∧
    (resolveExtensions "visionos" ["ts"]).count ".ts" = 1 := by
  decide

/-- C3: the claim states that for every supported platform the
platform-qualified entry is immediately before the generic entry; on
`visionos` the expansion of `base.ts` lines 211–218 interposes the
ios-qualified entry, so `.visionos.ts` is not immediately before `.ts`. -/
theorem C3_counterexample :
    ¬ immediatelyBefore ".visionos.ts" ".ts"
        (resolveExtensions "visionos" genericExtensions) := by
  decide

/-- C3 (amended): every generic extension appears in the list for every
known platform; for `ios` and `android` the platform-qualified entry is
immediately before the generic one; for `visionos` the visionos-qualified
entry is immediately before the ios-qualified one, which is immediately
before the generic one. -/
theorem C3_amended :
    ∀ p ∈ allKnownPlatforms, ∀ e ∈ genericExtensions,
      ("." ++ e) ∈ resolveExtensions p genericExtensions ∧
      (p ≠ "visionos" →
        immediatelyBefore ("." ++ p ++ "." ++ e) ("." ++ e)
          (resolveExtensions p genericExtensions)) ∧
      (p = "visionos" →
        immediatelyBefore ("." ++ p ++ "." ++ e) (".ios." ++ e)
          (resolveExtensions p genericExtensions) ∧
        immediatelyBefore (".ios." ++ e) ("." ++ e)
          (resolveExtensions p genericExtensions)) := by
  decide

/-- C3 witness: the amended statement at platform `ios` and extension
`ts`. -/
theorem C3_amended_witness :
    ".ts" ∈ resolveExtensions "ios" genericExtensions ∧
    immediatelyBefore ".ios.ts" ".ts" (resolveExtensions "ios" genericExtensions) := by
  have h := C3_amended "ios" (by decide) "ts" (by decide)
  exact ⟨h.1, h.2.1 (by decide)⟩

/-- C4: the claim states that for the alias platform `visionos` every entry
`X.ios.e` has a corresponding `X.visionos.e` at a strictly later position;
in the produced list `.visionos.ts` precedes `.ios.ts`, so no later
position holds it. -/
theorem C4_counterexample :
    ¬ ((".ios.ts", ".visionos.ts") ∈
        laterPairs (resolveExtensions "visionos" genericExtensions)) := by
  decide

/-- C4 (amended): for every entry `.ios.e` of the visionos list, the
corresponding `.visionos.e` appears at a strictly earlier position — in
fact immediately before it — and the list contains no duplicate
entries. -/
theorem C4_amended :
    (∀ e ∈ genericExtensions,
      ((".visionos." ++ e), (".ios." ++ e)) ∈
        laterPairs (resolveExtensions "visionos" genericExtensions) ∧
      immediatelyBefore (".visionos." ++ e) (".ios." ++ e)
        (resolveExtensions "visionos" genericExtensions)) ∧
    (resolveExtensions "visionos" genericExtensions).Nodup := by
  decide

/-- C4 witness: the amended statement at extension `ts`. -/
theorem C4_amended_witness :
    ((".visionos.ts", ".ios.ts") ∈
      laterPairs (resolveExtensions "visionos" genericExtensions)) ∧
    (resolveExtensions "visionos" genericExtensions).Nodup :=
  ⟨(C4_amended.1 "ts" (by decide)).1, C4_amended.2⟩

/-- C7: the claim states that the `.tsx` entries are appended after the
fixed extension set; `src/unnamed/part_000` line 15 prepends them, so
`.json` does not precede `.tsx` in the resulting list. -/
theorem C7_counterexample :
    ¬ ((".json", ".tsx") ∈ laterPairs (reactExtensions "ios")) := by
  decide

/-- C7 (amended): the UI-component configuration prepends
`.${platform}.tsx` and `.tsx` — they are placed before the fixed set, with
the platform-qualified variant immediately before the generic one. -/
theorem C7_amended :
    ∀ p ∈ allKnownPlatforms,
      reactExtensions p =
        ("." ++ p ++ ".tsx") :: ".tsx" :: resolveExtensions p genericExtensions ∧
      immediatelyBefore ("." ++ p ++ ".tsx") ".tsx" (reactExtensions p) := by
  decide

/-- C7 witness: the amended statement at platform `ios`. -/
theorem C7_amended_witness :
    reactExtensions "ios" =
      ".ios.tsx" :: ".tsx" :: resolveExtensions "ios" genericExtensions :=
  (C7_amended "ios" (by decide)).1

/-- C8: re-applying the extension-list transformer of `base.ts`
lines 195–221 to the state it produced leaves the state unchanged: the
`ChainedSet` deduplicates every re-added entry, and re-running the
visionos expansion introduces no new or reordered entries, so the derived
outputs are reproducible (in this pure embedding, two runs from identical
inputs are definitionally equal; this establishes the non-definitional
part, that no state accumulates across runs). -/
theorem C8_idempotent :
    ∀ p ∈ allKnownPlatforms,
      applyResolveExtensions p genericExtensions
          (resolveExtensions p genericExtensions) =
        resolveExtensions p genericExtensions := by
  decide

/-- C8 witness: idempotence at platform `visionos`, where the expansion
step re-runs over the already expanded list. -/
theorem C8_idempotent_witness :
    applyResolveExtensions "visionos" genericExtensions
        (resolveExtensions "visionos" genericExtensions) =
      resolveExtensions "visionos" genericExtensions :=
  C8_idempotent "visionos" (by decide)

/-- C6: configuration construction validates the platform name first; for
any identifier outside the known set it fails with a configuration error
and neither the extension list nor the exclusion alternation is derived,
and no substituted platform value is produced. -/
theorem C6_unknown_platform (p : String) (h : p ∉ allKnownPlatforms) :
    buildConfiguration p = Except.error ("invalid platform: " ++ p) := by
  unfold buildConfiguration getPlatformName
  simp [h, Except.map]

/-- C6 witness: the unknown platform `windows` is rejected. -/
theorem C6_unknown_platform_witness :
    buildConfiguration "windows" = Except.error ("invalid platform: " ++ "windows") :=
  C6_unknown_platform "windows" (by decide)

/-! ## Stylesheet import resolver claims (C5, C10) -/

/-- A JavaScript `includes` test with an empty needle always succeeds. -/
theorem strIncludesL_nil (hay : List Char) : strIncludesL [] hay = true := by
  unfold strIncludesL
  rw [List.any_eq_true]
  exact ⟨hay, (List.mem_tails hay hay).mpr (List.suffix_refl hay), List.isPrefixOf_nil_left⟩

/-- When the specifier has no extension, every candidate of the loop is
skipped (the specifier includes the empty platform extension) and the
specifier itself is returned. -/
theorem cssImportGo_no_ext (fs : FS) (id baseDir : String) (h : extname id = "") :
    ∀ ts, cssImportGo fs id baseDir ts = id := by
  intro ts
  induction ts with
  | nil => rfl
  | cons t rest ih =>
    have hskip : strIncludes "" id = true := strIncludesL_nil id.toList
    rw [cssImportGo]
    simp only [h, ne_eq, not_true_eq_false, ite_false, if_false]
    rw [if_pos hskip]
    exact ih

/-- When no candidate resolves (every `require.resolve` attempt fails and
no candidate path exists), the loop falls through every candidate and
returns the specifier. -/
theorem cssImportGo_none (fs : FS) (id baseDir : String)
    (hnone : ∀ r b, fs.requireResolve r b = none)
    (hex : ∀ q, fs.pathExists q = false) :
    ∀ ts, cssImportGo fs id baseDir ts = id := by
  intro ts
  induction ts with
  | nil => rfl
  | cons t rest ih =>
    rw [cssImportGo]
    split
    · split
      · exact ih
      · simp only [hnone, hex, Bool.false_eq_true, if_false, ite_false]
        exact ih
    · split
      · exact ih
      · simp only [hnone, hex, Bool.false_eq_true, if_false, ite_false]
        exact ih

/-- The first candidate of the loop wins: when the specifier has an
extension, does not already include the first platform extension, and the
`require.resolve` attempt for its platform-qualified sibling succeeds,
that resolution is returned. -/
theorem cssImportGo_first (fs : FS) (id baseDir t : String) (rest : List String)
    (r : String) (hne : extname id ≠ "")
    (hinc : strIncludes ("." ++ t ++ extname id) id = false)
    (hres : fs.requireResolve (jsReplaceFirst id (extname id) ("." ++ t ++ extname id))
        baseDir = some r) :
    cssImportGo fs id baseDir (t :: rest) = r := by
  rw [cssImportGo]
  simp only [ne_eq, hne, not_false_eq_true, if_true, ite_true, hinc, Bool.false_eq_true,
    if_false, ite_false, hres]

/-- When the first candidate of the loop misses — the `require.resolve`
attempt for its platform-qualified sibling fails (the exception is
caught) and the joined path does not exist — the loop silently falls
through to the remaining candidates. -/
theorem cssImportGo_miss (fs : FS) (id baseDir t : String) (rest : List String)
    (hne : extname id ≠ "")
    (hinc : strIncludes ("." ++ t ++ extname id) id = false)
    (hnone : fs.requireResolve (jsReplaceFirst id (extname id) ("." ++ t ++ extname id))
        baseDir = none)
    (hex : fs.pathExists
        (fs.resolvePath baseDir
          (jsReplaceFirst id (extname id) ("." ++ t ++ extname id))) = false) :
    cssImportGo fs id baseDir (t :: rest) = cssImportGo fs id baseDir rest := by
  rw [cssImportGo]
  simp only [ne_eq, hne, not_false_eq_true, if_true, ite_true, hinc, Bool.false_eq_true,
    if_false, ite_false, hnone, hex]

/-- C5: the stylesheet import resolver tries the platform-qualified
candidates in order and is total: a failed `require.resolve` attempt is
caught and falls through.  First conjunct: when no candidate resolves the
original specifier is returned unchanged.  Second conjunct: when the first
candidate — the active-platform-qualified sibling — resolves, its
resolution is the result.  Third conjunct: on `visionos`, when the
visionos-qualified first candidate misses (its `require.resolve` attempt
fails and its joined path does not exist), the loop falls through to the
ios-qualified second candidate, and that candidate's resolution is the
result. -/
theorem C5_resolver (fs : FS) (platform id baseDir : String) :
    ((∀ r b, fs.requireResolve r b = none) → (∀ q, fs.pathExists q = false) →
      cssImportResolve fs platform id baseDir = id) ∧
    (∀ r, extname id ≠ "" →
      strIncludes ("." ++ platform ++ extname id) id = false →
      fs.requireResolve (jsReplaceFirst id (extname id) ("." ++ platform ++ extname id))
          baseDir = some r →
      cssImportResolve fs platform id baseDir = r) ∧
    (∀ r, platform = "visionos" → extname id ≠ "" →
      strIncludes ("." ++ platform ++ extname id) id = false →
      fs.requireResolve (jsReplaceFirst id (extname id) ("." ++ platform ++ extname id))
          baseDir = none →
      fs.pathExists
          (fs.resolvePath baseDir
            (jsReplaceFirst id (extname id) ("." ++ platform ++ extname id))) = false →
      strIncludes ("." ++ "ios" ++ extname id) id = false →
      fs.requireResolve (jsReplaceFirst id (extname id) ("." ++ "ios" ++ extname id))
          baseDir = some r →
      cssImportResolve fs platform id baseDir = r) := by
  refine ⟨?_, ?_, ?_⟩
  · intro hnone hex
    exact cssImportGo_none fs id baseDir hnone hex _
  · intro r hne hinc hres
    unfold cssImportResolve
    by_cases hv : platform = "visionos"
    · rw [if_pos hv]
      exact cssImportGo_first fs id baseDir platform _ r hne hinc hres
    · rw [if_neg hv]
      exact cssImportGo_first fs id baseDir platform _ r hne hinc hres
  · intro r hv hne hinc1 hnone1 hex1 hinc2 hres2
    subst hv
    unfold cssImportResolve
    rw [if_pos rfl]
    rw [cssImportGo_miss fs id baseDir "visionos" ["ios"] hne hinc1 hnone1 hex1]
    exact cssImportGo_first fs id baseDir "ios" [] r hne hinc2 hres2

/-- C5 witness: with an environment where nothing resolves the specifier
comes back unchanged; with an environment where `require.resolve`
succeeds, the platform-qualified sibling of `app.css` is resolved; and on
`visionos`, with an environment where only `app.ios.css` resolves, the
visionos-qualified first candidate misses and the resolver falls through
to the ios-qualified second candidate. -/
theorem C5_resolver_witness :
    cssImportResolve ⟨fun _ _ => none, fun _ => false, fun b r => b ++ "/" ++ r⟩
        "ios" "app.css" "/proj" = "app.css" ∧
    cssImportResolve ⟨fun r _ => some ("R:" ++ r), fun _ => false, fun b r => b ++ "/" ++ r⟩
        "ios" "app.css" "/proj" = "R:app.ios.css" ∧
    cssImportResolve
        ⟨fun r _ => if r = "app.ios.css" then some ("R:" ++ r) else none,
         fun _ => false, fun b r => b ++ "/" ++ r⟩
        "visionos" "app.css" "/proj" = "R:app.ios.css" := by
  refine ⟨?_, ?_, ?_⟩
  · exact (C5_resolver _ "ios" "app.css" "/proj").1 (fun _ _ => rfl) (fun _ => rfl)
  · exact (C5_resolver _ "ios" "app.css" "/proj").2.1 "R:app.ios.css"
      (by decide) (by decide) (by decide)
  · exact (C5_resolver _ "visionos" "app.css" "/proj").2.2 "R:app.ios.css" rfl
      (by decide) (by decide) (by decide) (by decide) (by decide) (by decide)

/-- C10: whenever the specifier has no file extension, the resolver
returns it unchanged for every platform, base directory and resolution
environment — the result does not depend on the environment at all, so no
filesystem or module resolution attempt can influence it. -/
theorem C10_no_extension (fs : FS) (platform id baseDir : String)
    (h : extname id = "") :
    cssImportResolve fs platform id baseDir = id := by
  unfold cssImportResolve
  exact cssImportGo_no_ext fs id baseDir h _

/-- C10 witness: even in an environment where every lookup would succeed,
the extensionless specifier `foo` is returned unchanged. -/
theorem C10_no_extension_witness :
    cssImportResolve ⟨fun r _ => some ("R:" ++ r), fun _ => true, fun b r => b ++ "/" ++ r⟩
        "visionos" "foo" "/proj" = "foo" :=
  C10_no_extension _ "visionos" "foo" "/proj" (by decide)

/-! ## Exclusion pattern claims (C1, C9) -/

/-- The maximal run of word characters at the end of a list. -/
def wordSuffix (l : List Char) : List Char :=
  (l.reverse.takeWhile isWordChar).reverse

/-- A list ending in a dot followed by word characters has exactly those
word characters as its maximal word-character suffix. -/
theorem wordSuffix_append (a b : List Char) (hb : b.all isWordChar = true) :
    wordSuffix (a ++ '.' :: b) = b := by
  have hall : ∀ c ∈ b.reverse, isWordChar c := by
    intro c hc
    exact List.all_eq_true.mp hb c (List.mem_reverse.mp hc)
  have h1 : (a ++ '.' :: b).reverse = b.reverse ++ '.' :: a.reverse := by
    simp
  have h2 : ('.' :: a.reverse).takeWhile isWordChar = [] := by
    rw [List.takeWhile_cons, if_neg (by decide)]
  unfold wordSuffix
  rw [h1, List.takeWhile_append_of_pos hall, h2]
  simp

/-- Positive case of the exclusion regular expression: a path of the form
`u ++ "." ++ q ++ "." ++ w` with `w` a non-empty run of word characters is
matched by the alternative `q`. -/
theorem reAltMatch_suffix (q w u : List Char) (hw : w ≠ [])
    (hwc : w.all isWordChar = true) :
    reAltMatch q (u ++ '.' :: (q ++ '.' :: w)) = true := by
  unfold reAltMatch
  rw [List.any_eq_true]
  refine ⟨'.' :: (q ++ '.' :: w), (List.mem_tails _ _).mpr ⟨u, rfl⟩, ?_⟩
  rw [reAltAt, List.drop_left, tailWordMatch]
  cases w with
  | nil => cases hw rfl
  | cons c cs => simp [hwc]

/-- Negative case of the exclusion regular expression: a path ending in
`"." ++ p ++ "." ++ w` — `p` and `w` made of word characters only — is not
matched by an alternative `q ≠ p` that is also made of word characters
only: the matched `\w+` group must be exactly `w` (word characters cannot
cross the dots) and the alternative must then equal `p`. -/
theorem reAltMatch_ne (q p w u : List Char)
    (hq : q.all isWordChar = true) (hp : p.all isWordChar = true)
    (hne : q ≠ p) (hw : w.all isWordChar = true) :
    reAltMatch q (u ++ '.' :: (p ++ '.' :: w)) = false := by
  cases hb : reAltMatch q (u ++ '.' :: (p ++ '.' :: w)) with
  | false => rfl
  | true =>
    exfalso
    unfold reAltMatch at hb
    rw [List.any_eq_true] at hb
    obtain ⟨t, htm, hat⟩ := hb
    rw [List.mem_tails] at htm
    obtain ⟨s, hs⟩ := htm
    cases t with
    | nil =>
      rw [reAltAt] at hat
      exact Bool.false_ne_true hat
    | cons c rest =>
      rw [reAltAt] at hat
      simp only [Bool.and_eq_true, beq_iff_eq] at hat
      obtain ⟨⟨hc, hpre⟩, htail⟩ := hat
      obtain ⟨r2, hr2⟩ := List.isPrefixOf_iff_prefix.mp hpre
      subst hr2
      rw [List.drop_left] at htail
      cases r2 with
      | nil =>
        rw [tailWordMatch] at htail
        exact Bool.false_ne_true htail
      | cons d w2 =>
        rw [tailWordMatch] at htail
        simp only [Bool.and_eq_true, beq_iff_eq] at htail
        obtain ⟨⟨hd, _⟩, hw2all⟩ := htail
        subst hc
        subst hd
        have hs2 : (s ++ '.' :: q) ++ '.' :: w2 = (u ++ '.' :: p) ++ '.' :: w := by
          rw [List.append_assoc, List.append_assoc]
          simpa using hs
        have hww : w2 = w := by
          have h1 := wordSuffix_append (s ++ '.' :: q) w2 hw2all
          have h2 := wordSuffix_append (u ++ '.' :: p) w hw
          rw [hs2, h2] at h1
          exact h1.symm
        subst hww
        have hqp2 : s ++ '.' :: q = u ++ '.' :: p := List.append_cancel_right hs2
        have hq2 := wordSuffix_append s q hq
        rw [hqp2, wordSuffix_append u p hp] at hq2
        exact hne hq2.symm

/-- C1: the claim states the union of exclusion patterns never matches a
path ending in the active platform's own suffix; the `App_Resources`
pattern matches any path containing `App_Resources`, including one ending
in `.ios.ts` while `ios` is the active platform. -/
theorem C1_counterexample :
    exclusionMatch allKnownPlatforms "ios"
      ("App_Resources/main".toList ++ '.' :: ("ios".toList ++ '.' :: ['t', 's'])) =
      true := by
  decide

/-- C1 (amended): for an active platform `p` and any other known platform
`q` (platform names being non-empty runs of word characters), the
`Other_Platforms` regular expression alone matches no path ending in
`.p.ts`, and the union of exclusion patterns matches every path ending in
`.q.ts`; only the `App_Resources` pattern can match a path ending in
`.p.ts`, and only when the path contains `App_Resources`. -/
theorem C1_exclusion (allKnown : List String) (p q : String) (u v : List Char)
    (hknown : ∀ r ∈ allKnown, r.toList.all isWordChar = true)
    (hpw : p.toList.all isWordChar = true)
    (hq : q ∈ allKnown) (hqp : q ≠ p) :
    otherPlatformsMatch allKnown p (u ++ '.' :: (p.toList ++ '.' :: ['t', 's'])) = false ∧
    exclusionMatch allKnown p (v ++ '.' :: (q.toList ++ '.' :: ['t', 's'])) = true := by
  constructor
  · unfold otherPlatformsMatch
    rw [List.any_eq_false]
    intro qL hqL
    unfold otherPlatformsAlternatives at hqL
    rw [List.mem_map] at hqL
    obtain ⟨r, hr, hrq⟩ := hqL
    rw [List.mem_filter] at hr
    obtain ⟨hrmem, hrne⟩ := hr
    subst hrq
    intro hcon
    have hrp : r.toList ≠ p.toList := by
      intro hh
      exact absurd (String.ext hh) (of_decide_eq_true hrne)
    rw [reAltMatch_ne r.toList p.toList ['t', 's'] u (hknown r hrmem) hpw hrp
      (by decide)] at hcon
    exact Bool.false_ne_true hcon
  · unfold exclusionMatch
    rw [Bool.or_eq_true]
    left
    unfold otherPlatformsMatch
    rw [List.any_eq_true]
    refine ⟨q.toList, ?_, reAltMatch_suffix q.toList ['t', 's'] v (by decide) (by decide)⟩
    unfold otherPlatformsAlternatives
    rw [List.mem_map]
    exact ⟨q, List.mem_filter.mpr ⟨hq, decide_eq_true hqp⟩, rfl⟩

/-- C1 witness: with the known platforms and active platform `ios`, the
`Other_Platforms` regular expression rejects `src/a.ios.ts` while the
union matches `src/b.android.ts`. -/
theorem C1_exclusion_witness :
    otherPlatformsMatch allKnownPlatforms "ios"
        ("src/a".toList ++ '.' :: ("ios".toList ++ '.' :: ['t', 's'])) = false ∧
    exclusionMatch allKnownPlatforms "ios"
        ("src/b".toList ++ '.' :: ("android".toList ++ '.' :: ['t', 's'])) = true :=
  C1_exclusion allKnownPlatforms "ios" "android" "src/a".toList "src/b".toList
    (by decide) (by decide) (by decide) (by decide)

/-- C9: on a `visionos` build with `ios` among the known platforms, the
`Other_Platforms` regular expression matches every path ending in
`.ios.<word-characters>`, even though the alias rule places `.ios.ts` in
the resolution extension list. -/
theorem C9_ios_suffix_excluded (allKnown : List String) (hios : "ios" ∈ allKnown)
    (u w : List Char) (hw : w ≠ []) (hwc : w.all isWordChar = true) :
    otherPlatformsMatch allKnown "visionos"
        (u ++ '.' :: ("ios".toList ++ '.' :: w)) = true ∧
    ".ios.ts" ∈ resolveExtensions "visionos" genericExtensions := by
  constructor
  · unfold otherPlatformsMatch
    rw [List.any_eq_true]
    refine ⟨"ios".toList, ?_, reAltMatch_suffix "ios".toList w u hw hwc⟩
    unfold otherPlatformsAlternatives
    rw [List.mem_map]
    exact ⟨"ios", List.mem_filter.mpr ⟨hios, by decide⟩, rfl⟩
  · decide

/-- C9 witness: the statement at the modelled known-platform set and the
path `pages/home.ios.ts`. -/
theorem C9_ios_suffix_excluded_witness :
    otherPlatformsMatch allKnownPlatforms "visionos"
        ("pages/home".toList ++ '.' :: ("ios".toList ++ '.' :: ['t', 's'])) = true ∧
    ".ios.ts" ∈ resolveExtensions "visionos" genericExtensions :=
  C9_ios_suffix_excluded allKnownPlatforms (by decide) "pages/home".toList ['t', 's']
    (by decide) (by decide)

end NSWebpack
